import Mathlib

/-!
# MT7697 serial driver (uart.c): framed I/O, readiness poller, receive worker, session lifecycle

A shallow embedding of `linux_kernel_modules/mt7697serial/uart.c`.

* Everything the kernel answers (results of `kernel_read`, `kernel_write`, `filp_open`,
  `filp_close`, the readiness mask, pending signals, ...) is an input of the model, given as a
  script of observations; a function whose script runs out before the C function would return
  yields `none` (the call is still blocked).
* Everything the driver does to the outside (low-level transfers, callbacks, wake-ups, ...) is
  recorded in a trace.
* `size_t` and `unsigned long` are `Nat` reduced modulo `2 ^ BITS_PER_LONG`; `loff_t` is a
  64-bit pattern, a `Nat` reduced modulo `2 ^ 64`.
-/

namespace MT7697

/-! ## Machine model -/

/-- The two data models of the kernel: 32-bit (`int`, `long`, pointers of 32 bits) and
64-bit (`long` and pointers of 64 bits). -/
inductive Arch where
  | ilp32
  | lp64
  deriving DecidableEq, Repr

/-- Width of `unsigned long` and of `size_t`. -/
def BITS_PER_LONG : Arch → Nat
  | .ilp32 => 32
  | .lp64 => 64

/-- Number of values of an `unsigned long` / `size_t`. -/
def ULONG_RANGE (a : Arch) : Nat := 2 ^ BITS_PER_LONG a

/-- Number of bit patterns of a `loff_t` (64 bits on both data models). -/
def LOFF_RANGE : Nat := 2 ^ 64

/-- A pointer value; `NULL` is `0`. -/
abbrev Ptr := Nat

/-- The null pointer. -/
def NULL : Ptr := 0

/-- Modelled from the spec: the `invalid` sentinel of a session without channel, declared in
`uart.h`, which is not among the sources. It is the null pointer, the value every test of the
driver (`!uart_info->fd_hndl`, `WARN_ON(uart_info->fd_hndl)`) compares the handle with. -/
def MT7697_UART_INVALID_FD : Ptr := NULL

/-- `sizeof(u32)`. -/
def SIZEOF_U32 : Nat := 4

/-- Modelled from the spec: the macro `LEN_TO_WORD` is declared in a header that is not among
the sources. It converts a byte length to a count of 4-byte words, a started word counting as
one. -/
def LEN_TO_WORD (x : Nat) : Nat := x / SIZEOF_U32 + (if x % SIZEOF_U32 = 0 then 0 else 1)

/-! ## Data model -/

/-- Modelled from the spec: the command header inside a response header, declared in a header
that is not among the sources; of it the driver only reads the command-type tag `type`. -/
structure mt7697_cmd_hdr where
  type : Nat
  deriving DecidableEq, Repr

/-- Modelled from the spec: the fixed-size response header `struct mt7697_rsp_hdr`, declared
in a header that is not among the sources: a command header and a signed result code. -/
structure mt7697_rsp_hdr where
  cmd : mt7697_cmd_hdr
  result : Int
  deriving DecidableEq, Repr

/-- Modelled from the spec: the session `struct mt7697_uart_info`, declared in `uart.h`, which
is not among the sources, with the fields `uart.c` reads or writes after probe: the channel
handle, the header buffer, the callback and its context, and the stop flag `close`. -/
structure mt7697_uart_info where
  fd_hndl : Ptr
  rsp : mt7697_rsp_hdr
  rx_fcn : Ptr
  rx_hndl : Ptr
  close : Bool
  deriving DecidableEq, Repr

/-- One call of `kernel_read` or `kernel_write`: the file, the address the transfer starts at
(as a byte offset into the caller's buffer), the byte count asked for, the file position
passed, and the raw result. -/
structure IoCall where
  fd : Ptr
  ptr : Nat
  count : Nat
  pos : Nat
  res : Int
  deriving DecidableEq, Repr

/-! ## Framed I/O -/

/-- The `while (offset < end)` loop of `mt7697_uart_read`. `errs` are the results of the
successive `kernel_read` calls (an `int` each). The result is `some len` when the loop is left
normally, `some 0` on `goto cleanup`, `none` when the script is exhausted while another
`kernel_read` is outstanding. -/
def read_loop (a : Arch) (fd : Ptr) (len end_ : Nat) :
    List Int → Nat → Nat → Nat → Option Nat × List IoCall
  | [], offset, _, _ => if offset < end_ then (none, []) else (some len, [])
  | err :: errs, offset, ptr, count =>
    if offset < end_ then
      if err < 0 then (some 0, [⟨fd, ptr, count, offset, err⟩])
      else if err = 0 then (some 0, [⟨fd, ptr, count, offset, err⟩])
      else
        let r := read_loop a fd len end_ errs
          ((offset + err.toNat) % LOFF_RANGE)
          ((ptr + err.toNat) % ULONG_RANGE a)
          (((count : Int) - err) % (ULONG_RANGE a : Int)).toNat
        (r.1, ⟨fd, ptr, count, offset, err⟩ :: r.2)
    else (some len, [])

/-- The function `mt7697_uart_read(arg, buf, len)`: the value returned (`none`: still blocked
in `kernel_read`) and the low-level reads issued. -/
def mt7697_uart_read (a : Arch) (uart_info : mt7697_uart_info) (len : Nat) (errs : List Int) :
    Option Nat × List IoCall :=
  let count := (len * SIZEOF_U32) % ULONG_RANGE a
  let end_ := count
  if uart_info.fd_hndl = NULL then (some 0, [])
  else read_loop a uart_info.fd_hndl len end_ errs 0 0 count

/-- The `while (pos < end)` loop of `mt7697_uart_write`. `results` are the results of the
successive `kernel_write` calls (an `ssize_t` each), which the code stores in the `size_t`
variable `num_write`. -/
def write_loop (a : Arch) (fd : Ptr) (end_ : Nat) :
    List Int → Nat → Nat → Nat → Option Nat × List IoCall
  | [], pos, _, _ =>
    if pos < end_ then (none, []) else (some (LEN_TO_WORD pos % ULONG_RANGE a), [])
  | res :: results, pos, ptr, left =>
    if pos < end_ then
      let num_write := (res % (ULONG_RANGE a : Int)).toNat
      if num_write = 0 then (some 0, [⟨fd, ptr, left, pos, res⟩])
      else
        let r := write_loop a fd end_ results
          ((pos + num_write) % LOFF_RANGE)
          ((ptr + num_write) % ULONG_RANGE a)
          ((left + ULONG_RANGE a - num_write) % ULONG_RANGE a)
        (r.1, ⟨fd, ptr, left, pos, res⟩ :: r.2)
    else (some (LEN_TO_WORD pos % ULONG_RANGE a), [])

/-- The function `mt7697_uart_write(arg, buf, len)`: the value returned (`none`: still blocked
in `kernel_write`) and the low-level writes issued. -/
def mt7697_uart_write (a : Arch) (uart_info : mt7697_uart_info) (len : Nat)
    (results : List Int) : Option Nat × List IoCall :=
  let end_ := (len * SIZEOF_U32) % ULONG_RANGE a
  let left := end_
  if uart_info.fd_hndl = NULL then (some 0, [])
  else write_loop a uart_info.fd_hndl end_ results 0 0 left

/-! ## Vocabulary of the framed I/O contracts -/

/-- The results a low-level read may give when `c` bytes are still requested: a count of at
most `c` bytes, `0`, or a negative error; after a positive count the rest of the script is
judged against what is then still requested. -/
def ReadScript : Nat → List Int → Prop
  | _, [] => True
  | c, r :: rs => r ≤ (c : Int) ∧ (0 < r → ReadScript (c - r.toNat) rs)

/-- The results a low-level write may give when `c` bytes are outstanding, errors excluded:
a count between `0` and `c`; after a non-zero count the rest of the script is judged against
what is then outstanding. -/
def WriteScript : Nat → List Int → Prop
  | _, [] => True
  | c, r :: rs => 0 ≤ r ∧ r ≤ (c : Int) ∧ (0 < r → WriteScript (c - r.toNat) rs)

/-- The script lets a transfer of `c` bytes come to an end: it holds a result that is not
positive, or its results add up to `c` bytes or more. -/
def Ends (c : Nat) (rs : List Int) : Prop :=
  (∃ r ∈ rs, r ≤ 0) ∨ (c : Int) ≤ rs.sum

/-- The low-level transfers of a framed transfer of `e` bytes of which `s` are done, when the
successive results are `rs`: each call starts at buffer offset and file position `s`, asks for
the `e - s` bytes outstanding, and the next call starts after the bytes this one moved. -/
def transfers (fd : Ptr) (e : Nat) : Nat → List Int → List IoCall
  | _, [] => []
  | s, r :: rs => ⟨fd, s, e - s, s, r⟩ :: transfers fd e (s + r.toNat) rs

/-- The raw results of the calls of a trace, in order. -/
def results (tr : List IoCall) : List Int := tr.map IoCall.res

/-! ## Readiness poller -/

/-- Readiness bits of `<asm-generic/poll.h>`. -/
def POLLIN : Nat := 0x0001

/-- Error condition. -/
def POLLERR : Nat := 0x0008

/-- Hang-up. -/
def POLLHUP : Nat := 0x0010

/-- Normal data may be read. -/
def POLLRDNORM : Nat := 0x0040

/-- Priority-band data may be read. -/
def POLLRDBAND : Nat := 0x0080

/-- Error numbers of `<asm-generic/errno*.h>`. -/
def EINTR : Int := 4

/-- Invalid argument. -/
def EINVAL : Int := 22

/-- Connection timed out. -/
def ETIMEDOUT : Int := 110

/-- What one iteration of the loop of `mt7697_uart_rx_poll` observes: `poll` is `none` when
the file has no `f_op->poll`, and `some mask` when it has one that returns `mask`;
`signal_pending` is `signal_pending(current)`; `schedule_timeout` is the value returned by
`schedule_timeout_interruptible(MAX_SCHEDULE_TIMEOUT)`. -/
structure PollObs where
  poll : Option Nat
  signal_pending : Bool
  schedule_timeout : Int
  deriving DecidableEq, Repr

/-- What `mt7697_uart_rx_poll` does to the outside. -/
inductive PollEvent where
  | poll_initwait
  | poll (fd : Ptr)
  | schedule_timeout_interruptible
  | poll_freewait
  deriving DecidableEq, Repr

/-- The `while (1)` loop of `mt7697_uart_rx_poll`: the value of `ret` at `cleanup` (`none`:
the task is still waiting when the observations end) and the calls made. -/
def rx_poll_loop (fd : Ptr) : List PollObs → Option Int × List PollEvent
  | [] => (none, [])
  | o :: os =>
    match o.poll with
    | none => (some (-EINVAL), [])
    | some mask =>
      if mask &&& (POLLRDNORM ||| POLLRDBAND ||| POLLIN ||| POLLHUP ||| POLLERR) ≠ 0 then
        (some 0, [.poll fd])
      else if o.signal_pending then (some (-EINTR), [.poll fd])
      else if o.schedule_timeout = 0 then
        (some (-ETIMEDOUT), [.poll fd, .schedule_timeout_interruptible])
      else
        let r := rx_poll_loop fd os
        (r.1, .poll fd :: .schedule_timeout_interruptible :: r.2)

/-- The function `mt7697_uart_rx_poll(uart_info)`. -/
def mt7697_uart_rx_poll (uart_info : mt7697_uart_info) (obs : List PollObs) :
    Option Int × List PollEvent :=
  let r := rx_poll_loop uart_info.fd_hndl obs
  match r.1 with
  | none => (none, .poll_initwait :: r.2)
  | some ret => (some ret, .poll_initwait :: r.2 ++ [.poll_freewait])

/-! ## Receive worker -/

/-- What one iteration of the loop of `mt7697_uart_rx_work` observes: the observations of its
readiness wait; whether a closer has raised `close` by the time the wait is over; the results
of the `kernel_read` calls of its framed read; the contents of `uart_info->rsp` when that read
returns; the value the callback returns. -/
structure Iter where
  polls : List PollObs
  stop : Bool
  reads : List Int
  rsp : mt7697_rsp_hdr
  cb : Int
  deriving DecidableEq, Repr

/-- What `mt7697_uart_rx_work` does to the outside: the readiness wait (with its calls), the
framed read (with its low-level reads), the callback `rx_fcn(&rsp, rx_hndl)`, and the wake-up
of `close_wq`. -/
inductive WorkEvent where
  | rx_poll (calls : List PollEvent)
  | uart_read (calls : List IoCall)
  | rx_fcn (fcn : Ptr) (rsp : mt7697_rsp_hdr) (rx_hndl : Ptr)
  | wake_up_interruptible
  deriving DecidableEq, Repr

/-- The `cleanup` label of `mt7697_uart_rx_work`: clear `close`, wake up `close_wq`. -/
def rx_work_cleanup (uart_info : mt7697_uart_info) (ev : List WorkEvent) :
    Option (mt7697_uart_info × List WorkEvent) :=
  some ({ uart_info with close := false }, ev ++ [.wake_up_interruptible])

/-- The function `mt7697_uart_rx_work`. `sizeof_rsp_hdr` is `sizeof(struct mt7697_rsp_hdr)`,
whose declaration is not among the sources. The result is the session when the work function
returns and what it did, `none` when the observations end while it is still running. -/
def mt7697_uart_rx_work (a : Arch) (sizeof_rsp_hdr : Nat) :
    mt7697_uart_info → List Iter → Option (mt7697_uart_info × List WorkEvent)
  | _, [] => none
  | uart_info, it :: its =>
    let p := mt7697_uart_rx_poll uart_info it.polls
    match p.1 with
    | none => none
    | some ret =>
      if ret ≠ 0 then rx_work_cleanup uart_info [.rx_poll p.2]
      else
        let uart_info := if it.stop then { uart_info with close := true } else uart_info
        if uart_info.close then rx_work_cleanup uart_info [.rx_poll p.2]
        else
          let r := mt7697_uart_read a uart_info (LEN_TO_WORD sizeof_rsp_hdr) it.reads
          match r.1 with
          | none => none
          | some n =>
            let uart_info := { uart_info with rsp := it.rsp }
            if n ≠ LEN_TO_WORD sizeof_rsp_hdr then
              rx_work_cleanup uart_info [.rx_poll p.2, .uart_read r.2]
            else
              (mt7697_uart_rx_work a sizeof_rsp_hdr uart_info its).map fun out =>
                (out.1, .rx_poll p.2 :: .uart_read r.2 ::
                  .rx_fcn uart_info.rx_fcn uart_info.rsp uart_info.rx_hndl :: out.2)

/-! ## Session lifecycle -/

/-- The value of `filp_open`: a file, or `ERR_PTR` of an error number. -/
inductive FilpResult where
  | file (p : Ptr)
  | err (errno : Int)
  deriving DecidableEq, Repr

/-- What `mt7697_uart_open` finds: whether `bus_find_device_by_name` finds the device; whether
`container_of` of it is non-null; the session `platform_get_drvdata` returns (`none`: `NULL`);
the value of `filp_open`; and the object the local `uart_info`, which is declared without
initialiser, designates before it is assigned (`none`: no object, a dereference faults). -/
structure OpenEnv where
  dev : Bool
  uart : Bool
  drvdata : Option mt7697_uart_info
  filp : FilpResult
  indeterminate : Option mt7697_uart_info
  deriving DecidableEq, Repr

/-- What `mt7697_uart_open` and `mt7697_uart_close` do to the outside. -/
inductive LifeEvent where
  | warn_on
  | filp_open
  | schedule_work
  | fput (fd : Ptr)
  | filp_close (fd : Ptr)
  | wait_event_interruptible
  | cancel_work_sync
  deriving DecidableEq, Repr

/-- The outcome of a call of `mt7697_uart_open` that returns: `ret` is the session returned,
in its state at return (`none`: `NULL`); `drvdata` is the registered session in its state at
return (`none`: there is none); `events` is what the call did. -/
structure OpenResult where
  ret : Option mt7697_uart_info
  drvdata : Option mt7697_uart_info
  events : List LifeEvent
  deriving DecidableEq, Repr

/-- The `cleanup` label of `mt7697_uart_open`:
`if (!ret && uart_info->fd_hndl) fput(uart_info->fd_hndl); return ret;`.
`uart_info` is the object the local pointer designates at that point; with `ret` null and no
such object the dereference faults and the call does not return (`none`). -/
def open_cleanup (ret uart_info drvdata : Option mt7697_uart_info) (ev : List LifeEvent) :
    Option OpenResult :=
  match ret with
  | some r => some ⟨some r, drvdata, ev⟩
  | none =>
    match uart_info with
    | none => none
    | some u =>
      if u.fd_hndl ≠ NULL then some ⟨none, drvdata, ev ++ [.fput u.fd_hndl]⟩
      else some ⟨none, drvdata, ev⟩

/-- The function `mt7697_uart_open(rx_fcn, rx_hndl)`. -/
def mt7697_uart_open (rx_fcn rx_hndl : Ptr) (env : OpenEnv) : Option OpenResult :=
  if env.dev = false then open_cleanup none env.indeterminate env.drvdata []
  else if env.uart = false then open_cleanup none env.indeterminate env.drvdata []
  else
    match env.drvdata with
    | none => open_cleanup none none none []
    | some uart_info =>
      let ev := (if uart_info.fd_hndl ≠ NULL then [LifeEvent.warn_on] else []) ++ [.filp_open]
      match env.filp with
      | .err _ =>
        let uart_info := { uart_info with fd_hndl := MT7697_UART_INVALID_FD }
        open_cleanup none (some uart_info) (some uart_info) ev
      | .file p =>
        let uart_info := { uart_info with fd_hndl := p, rx_fcn := rx_fcn, rx_hndl := rx_hndl }
        open_cleanup (some uart_info) (some uart_info) (some uart_info) (ev ++ [.schedule_work])

/-- The function `mt7697_uart_close(arg)`. `ret` is the value of `filp_close`; `worker_done`
tells whether the worker cleared `close` while the call waited on `close_wq` (`false`: the
wait was ended by a signal). The result is the value returned, the session at return, and what
the call did. -/
def mt7697_uart_close (uart_info : mt7697_uart_info) (ret : Int) (worker_done : Bool) :
    Int × mt7697_uart_info × List LifeEvent :=
  let ev := (if uart_info.fd_hndl = NULL then [LifeEvent.warn_on] else [])
  let uart_info := { uart_info with close := true }
  let ev := ev ++ [.filp_close uart_info.fd_hndl]
  if ret < 0 then (ret, uart_info, ev)
  else
    let uart_info := if worker_done then { uart_info with close := false } else uart_info
    (ret, { uart_info with fd_hndl := MT7697_UART_INVALID_FD },
      ev ++ [.wait_event_interruptible, .cancel_work_sync])

/-! ## Vocabulary of the poller contract -/

/-- The mask reports at least one of readable-normal, readable-priority, input-ready, hang-up
or error. -/
def Ready (mask : Nat) : Prop :=
  mask &&& POLLRDNORM ≠ 0 ∨ mask &&& POLLRDBAND ≠ 0 ∨ mask &&& POLLIN ≠ 0 ∨
  mask &&& POLLHUP ≠ 0 ∨ mask &&& POLLERR ≠ 0

/-- An iteration that meets no terminal condition: the channel can be polled, its mask has
none of the readiness bits, no signal is pending and the scheduling wait returns non-zero. -/
def Waits (o : PollObs) : Prop :=
  ∃ m, o.poll = some m ∧ ¬ Ready m ∧ o.signal_pending = false ∧ o.schedule_timeout ≠ 0

/-- What the poller does in a run of iterations that meet no terminal condition: it polls and
waits once in each. -/
def waited (fd : Ptr) (pre : List PollObs) : List PollEvent :=
  pre.flatMap fun _ => [.poll fd, .schedule_timeout_interruptible]

/-! ## Vocabulary of the worker contracts -/

/-- The header word count the worker asks the framed read for. -/
def hdr_words (sizeof_rsp_hdr : Nat) : Nat := LEN_TO_WORD sizeof_rsp_hdr

/-- An iteration that delivers: the readiness wait succeeds, the stop flag is clear and the
framed read gives a full header. -/
def Delivers (a : Arch) (sz : Nat) (u : mt7697_uart_info) (it : Iter) : Prop :=
  (mt7697_uart_rx_poll u it.polls).1 = some 0 ∧ u.close = false ∧ it.stop = false ∧
  (mt7697_uart_read a u (hdr_words sz) it.reads).1 = some (hdr_words sz)

/-- What the worker does in a run of delivering iterations. -/
def delivered (a : Arch) (sz : Nat) (u : mt7697_uart_info) (its : List Iter) :
    List WorkEvent :=
  its.flatMap fun it =>
    [.rx_poll (mt7697_uart_rx_poll u it.polls).2,
     .uart_read (mt7697_uart_read a u (hdr_words sz) it.reads).2,
     .rx_fcn u.rx_fcn it.rsp u.rx_hndl]

/-- The callback invocations of a trace, in order: function, header, context. -/
def callbacks : List WorkEvent → List (Ptr × mt7697_rsp_hdr × Ptr)
  | [] => []
  | .rx_fcn f h c :: ev => (f, h, c) :: callbacks ev
  | _ :: ev => callbacks ev

/-- The session after a run of delivering iterations: each one overwrites the header
buffer. -/
def served (u : mt7697_uart_info) (its : List Iter) : mt7697_uart_info :=
  its.foldl (fun u it => { u with rsp := it.rsp }) u

/-- A last iteration in the sense of the delivery contract: the readiness wait fails, or the
stop flag is set when it returns, or the framed read returns `0`. -/
def Terminal (a : Arch) (sz : Nat) (u : mt7697_uart_info) (t : Iter) : Prop :=
  (∃ r, (mt7697_uart_rx_poll u t.polls).1 = some r ∧ r ≠ 0) ∨
  ((mt7697_uart_rx_poll u t.polls).1 = some 0 ∧ (u.close = true ∨ t.stop = true)) ∨
  ((mt7697_uart_rx_poll u t.polls).1 = some 0 ∧ u.close = false ∧ t.stop = false ∧
    (mt7697_uart_read a u (hdr_words sz) t.reads).1 = some 0)

/-- An iteration in which the channel is readable at once, no stop is requested, and the
framed read gets the 8 bytes of the header `{result = 0, type = 5}` in one piece. -/
def header_iter : Iter := ⟨[⟨some POLLIN, false, 1⟩], false, [8], ⟨⟨5⟩, 0⟩, 0⟩

/-- An iteration in which the channel is readable at once, no stop is requested, and the
low-level read reports end-of-stream. -/
def peer_closed_iter : Iter := ⟨[⟨some POLLIN, false, 1⟩], false, [0], ⟨⟨0⟩, 0⟩, 0⟩

/-- A session that was never opened. -/
def closed_session : mt7697_uart_info := ⟨MT7697_UART_INVALID_FD, ⟨⟨0⟩, 0⟩, 0, 0, false⟩

/-- A session with an open channel (handle `3`), callback `7` and context `9`. -/
def open_session : mt7697_uart_info := ⟨3, ⟨⟨0⟩, 0⟩, 7, 9, false⟩

/-! # Theorems -/

/-! ## Arithmetic of the loop variables -/

theorem ULONG_RANGE_le (a : Arch) : ULONG_RANGE a ≤ LOFF_RANGE := by
  cases a <;> simp [ULONG_RANGE, BITS_PER_LONG, LOFF_RANGE]

theorem ULONG_RANGE_pos (a : Arch) : 0 < ULONG_RANGE a := by
  cases a <;> simp [ULONG_RANGE, BITS_PER_LONG]

theorem results_transfers (fd : Ptr) (e : Nat) (rs : List Int) (s : Nat) :
    results (transfers fd e s rs) = rs := by
  induction rs generalizing s with
  | nil => rfl
  | cons r rs ih => simp [transfers, results] at ih ⊢; exact ih _

theorem sum_nonneg_of_pos (rs : List Int) (h : ∀ x ∈ rs, 0 < x) : 0 ≤ rs.sum := by
  induction rs with
  | nil => simp
  | cons r rs ih =>
    have h1 := h r (by simp)
    have h2 := ih (fun x hx => h x (by simp [hx]))
    simp only [List.sum_cons]
    omega

/-- After a positive count `r` that fits in what is outstanding, the three loop variables of
the read loop are the running total and what is left, without wrap-around. -/
theorem step_vars (a : Arch) (e s : Nat) (r : Int) (hr : 0 < r) (hfit : (s : Int) + r ≤ e)
    (he : e < ULONG_RANGE a) :
    (s + r.toNat) % LOFF_RANGE = s + r.toNat ∧
    (s + r.toNat) % ULONG_RANGE a = s + r.toNat ∧
    ((((e - s : Nat) : Int) - r) % (ULONG_RANGE a : Int)).toNat = e - (s + r.toNat) ∧
    (r % (ULONG_RANGE a : Int)).toNat = r.toNat ∧
    ((e - s) + ULONG_RANGE a - r.toNat) % ULONG_RANGE a = e - (s + r.toNat) := by
  have hle := ULONG_RANGE_le a
  obtain ⟨n, rfl⟩ : ∃ n : Nat, r = n := ⟨r.toNat, by omega⟩
  simp only [Int.toNat_ofNat]
  have hn : s + n ≤ e := by omega
  refine ⟨Nat.mod_eq_of_lt (by omega), Nat.mod_eq_of_lt (by omega), ?_, ?_, ?_⟩
  · have : (((e - s : Nat) : Int) - (n : Int)) = ((e - (s + n) : Nat) : Int) := by omega
    rw [this, ← Int.natCast_mod, Int.toNat_ofNat]
    exact Nat.mod_eq_of_lt (by omega)
  · rw [← Int.natCast_mod, Int.toNat_ofNat]
    exact Nat.mod_eq_of_lt (by omega)
  · have : (e - s) + ULONG_RANGE a - n = (e - (s + n)) + ULONG_RANGE a := by omega
    rw [this, Nat.add_mod_right]
    exact Nat.mod_eq_of_lt (by omega)

/-! ## Runs of the two transfer loops -/

/-- Positive counts that add up to exactly what is outstanding: the read loop issues one
read per count and is left normally, whatever follows in the script. -/
theorem read_loop_full (a : Arch) (fd : Ptr) (len e : Nat) (he : e < ULONG_RANGE a)
    (pre post : List Int) (s : Nat) (hpos : ∀ x ∈ pre, 0 < x) (hsum : (s : Int) + pre.sum = e) :
    read_loop a fd len e (pre ++ post) s s (e - s) = (some len, transfers fd e s pre) := by
  induction pre generalizing s with
  | nil =>
    have hs : ¬ s < e := by simp at hsum; omega
    cases post <;> simp [read_loop, transfers, hs]
  | cons r pre ih =>
    have hr : 0 < r := hpos r (by simp)
    have hpos2 : ∀ x ∈ pre, 0 < x := fun x hx => hpos x (by simp [hx])
    have h0 := sum_nonneg_of_pos pre hpos2
    simp only [List.sum_cons] at hsum
    have hlt : s < e := by omega
    obtain ⟨h1, h2, h3, -, -⟩ := step_vars a e s r hr (by omega) he
    have hih := ih (s + r.toNat) hpos2 (by push_cast; rw [Int.toNat_of_nonneg (by omega)]; omega)
    simp only [List.cons_append, read_loop, hlt, if_true, not_lt.mpr (le_of_lt hr), if_false,
      ne_of_gt hr, h1, h2, h3, List.append_eq, hih, transfers]

/-- Positive counts that leave bytes outstanding, then a result that is not positive: the read
loop stops at that result with `0`. -/
theorem read_loop_stop (a : Arch) (fd : Ptr) (len e : Nat) (he : e < ULONG_RANGE a)
    (pre post : List Int) (r : Int) (s : Nat) (hpos : ∀ x ∈ pre, 0 < x)
    (hsum : (s : Int) + pre.sum < e) (hr : r ≤ 0) :
    read_loop a fd len e (pre ++ r :: post) s s (e - s)
      = (some 0, transfers fd e s (pre ++ [r])) := by
  induction pre generalizing s with
  | nil =>
    have hs : s < e := by simp at hsum; omega
    rcases lt_or_eq_of_le hr with h | h
    · simp [read_loop, transfers, hs, h]
    · simp [read_loop, transfers, hs, h]
  | cons x pre ih =>
    have hx : 0 < x := hpos x (by simp)
    have hpos2 : ∀ y ∈ pre, 0 < y := fun y hy => hpos y (by simp [hy])
    have h0 := sum_nonneg_of_pos pre hpos2
    simp only [List.sum_cons] at hsum
    have hlt : s < e := by omega
    obtain ⟨h1, h2, h3, -, -⟩ := step_vars a e s x hx (by omega) he
    have hih := ih (s + x.toNat) hpos2 (by push_cast; rw [Int.toNat_of_nonneg (by omega)]; omega)
    simp only [List.cons_append, read_loop, hlt, if_true, not_lt.mpr (le_of_lt hx), if_false,
      ne_of_gt hx, h1, h2, h3, List.append_eq, hih, transfers]

/-- Positive counts that add up to exactly what is outstanding: the write loop issues one
write per count and returns the word count of the position reached. -/
theorem write_loop_full (a : Arch) (fd : Ptr) (e : Nat) (he : e < ULONG_RANGE a)
    (pre post : List Int) (s : Nat) (hpos : ∀ x ∈ pre, 0 < x) (hsum : (s : Int) + pre.sum = e) :
    write_loop a fd e (pre ++ post) s s (e - s)
      = (some (LEN_TO_WORD e % ULONG_RANGE a), transfers fd e s pre) := by
  induction pre generalizing s with
  | nil =>
    have hs : ¬ s < e := by simp at hsum; omega
    have hse : s = e := by simp at hsum; omega
    cases post <;> simp [write_loop, transfers, hs, hse]
  | cons r pre ih =>
    have hr : 0 < r := hpos r (by simp)
    have hpos2 : ∀ x ∈ pre, 0 < x := fun x hx => hpos x (by simp [hx])
    have h0 := sum_nonneg_of_pos pre hpos2
    simp only [List.sum_cons] at hsum
    have hlt : s < e := by omega
    obtain ⟨h1, h2, -, h4, h5⟩ := step_vars a e s r hr (by omega) he
    have hne : r.toNat ≠ 0 := by omega
    have hih := ih (s + r.toNat) hpos2 (by push_cast; rw [Int.toNat_of_nonneg (by omega)]; omega)
    simp only [List.cons_append, write_loop, hlt, if_true, h4, hne, if_false, h1, h2, h5,
      List.append_eq, hih, transfers]

/-- Positive counts that leave bytes outstanding, then a zero-byte result: the write loop
stops at that result with `0`. -/
theorem write_loop_stop (a : Arch) (fd : Ptr) (e : Nat) (he : e < ULONG_RANGE a)
    (pre post : List Int) (s : Nat) (hpos : ∀ x ∈ pre, 0 < x)
    (hsum : (s : Int) + pre.sum < e) :
    write_loop a fd e (pre ++ 0 :: post) s s (e - s)
      = (some 0, transfers fd e s (pre ++ [0])) := by
  induction pre generalizing s with
  | nil =>
    have hs : s < e := by simp at hsum; omega
    simp [write_loop, transfers, hs]
  | cons x pre ih =>
    have hx : 0 < x := hpos x (by simp)
    have hpos2 : ∀ y ∈ pre, 0 < y := fun y hy => hpos y (by simp [hy])
    have h0 := sum_nonneg_of_pos pre hpos2
    simp only [List.sum_cons] at hsum
    have hlt : s < e := by omega
    obtain ⟨h1, h2, -, h4, h5⟩ := step_vars a e s x hx (by omega) he
    have hne : x.toNat ≠ 0 := by omega
    have hih := ih (s + x.toNat) hpos2 (by push_cast; rw [Int.toNat_of_nonneg (by omega)]; omega)
    simp only [List.cons_append, write_loop, hlt, if_true, h4, hne, if_false, h1, h2, h5,
      List.append_eq, hih, transfers]

/-- A script of admissible read results that lets the transfer end starts with positive
counts adding up to exactly the `c` bytes requested, or with positive counts adding up to
less followed by a result that is not positive. -/
theorem read_script_split (rs : List Int) (c : Nat) (hadm : ReadScript c rs) (hend : Ends c rs) :
    (∃ pre post, rs = pre ++ post ∧ (∀ x ∈ pre, 0 < x) ∧ pre.sum = (c : Int)) ∨
    (∃ pre r post, rs = pre ++ r :: post ∧ (∀ x ∈ pre, 0 < x) ∧ pre.sum < (c : Int) ∧ r ≤ 0) := by
  induction rs generalizing c with
  | nil =>
    rcases hend with ⟨r, hr, -⟩ | h
    · simp at hr
    · left
      refine ⟨[], [], rfl, by simp, ?_⟩
      simp only [List.sum_nil] at h ⊢
      omega
  | cons r rs ih =>
    by_cases hc : c = 0
    · left; exact ⟨[], r :: rs, rfl, by simp, by simp [hc]⟩
    by_cases hr : r ≤ 0
    · right
      refine ⟨[], r, rs, rfl, by simp, ?_, hr⟩
      simp only [List.sum_nil]
      omega
    · have hr0 : 0 < r := by omega
      obtain ⟨hle, hrest⟩ := hadm
      have hend2 : Ends (c - r.toNat) rs := by
        rcases hend with ⟨x, hx, hx0⟩ | h
        · left
          rcases List.mem_cons.mp hx with rfl | hx
          · omega
          · exact ⟨x, hx, hx0⟩
        · right
          simp only [List.sum_cons] at h
          omega
      rcases ih (c - r.toNat) (hrest hr0) hend2 with
        ⟨pre, post, rfl, hp, hs⟩ | ⟨pre, x, post, rfl, hp, hs, hx⟩
      · left
        refine ⟨r :: pre, post, rfl, ?_, ?_⟩
        · intro y hy
          rcases List.mem_cons.mp hy with rfl | hy
          · exact hr0
          · exact hp y hy
        · simp only [List.sum_cons]; omega
      · right
        refine ⟨r :: pre, x, post, rfl, ?_, ?_, hx⟩
        · intro y hy
          rcases List.mem_cons.mp hy with rfl | hy
          · exact hr0
          · exact hp y hy
        · simp only [List.sum_cons]; omega

/-- A script of admissible write results is a script of admissible read results in which the
first result that is not positive, if the transfer gets to it, is zero. -/
theorem write_script_split (rs : List Int) (c : Nat) (hadm : WriteScript c rs)
    (hend : Ends c rs) :
    (∃ pre post, rs = pre ++ post ∧ (∀ x ∈ pre, 0 < x) ∧ pre.sum = (c : Int)) ∨
    (∃ pre post, rs = pre ++ 0 :: post ∧ (∀ x ∈ pre, 0 < x) ∧ pre.sum < (c : Int)) := by
  induction rs generalizing c with
  | nil =>
    rcases hend with ⟨r, hr, -⟩ | h
    · simp at hr
    · left
      refine ⟨[], [], rfl, by simp, ?_⟩
      simp only [List.sum_nil] at h ⊢
      omega
  | cons r rs ih =>
    obtain ⟨hge, hle, hrest⟩ := hadm
    by_cases hc : c = 0
    · left; exact ⟨[], r :: rs, rfl, by simp, by simp [hc]⟩
    by_cases hr : r ≤ 0
    · right
      have hr0 : r = 0 := by omega
      subst hr0
      refine ⟨[], rs, rfl, by simp, ?_⟩
      simp only [List.sum_nil]
      omega
    · have hr0 : 0 < r := by omega
      have hend2 : Ends (c - r.toNat) rs := by
        rcases hend with ⟨x, hx, hx0⟩ | h
        · left
          rcases List.mem_cons.mp hx with rfl | hx
          · omega
          · exact ⟨x, hx, hx0⟩
        · right
          simp only [List.sum_cons] at h
          omega
      rcases ih (c - r.toNat) (hrest hr0) hend2 with
        ⟨pre, post, rfl, hp, hs⟩ | ⟨pre, post, rfl, hp, hs⟩
      · left
        refine ⟨r :: pre, post, rfl, ?_, ?_⟩
        · intro y hy
          rcases List.mem_cons.mp hy with rfl | hy
          · exact hr0
          · exact hp y hy
        · simp only [List.sum_cons]; omega
      · right
        refine ⟨r :: pre, post, rfl, ?_, ?_⟩
        · intro y hy
          rcases List.mem_cons.mp hy with rfl | hy
          · exact hr0
          · exact hp y hy
        · simp only [List.sum_cons]; omega

/-! ## Framed read -/

/-- C1, as amended: for every word count `W` whose byte count `4 * W` fits in an
`unsigned long`, every session with a valid channel and every script of admissible low-level
read results that lets the transfer end, `mt7697_uart_read` returns, and returns `W` or `0`;
the reads it issues take the results of the script in order, each one at the buffer offset
that is the sum of the previous counts and for the bytes still requested; it returns `W`
exactly when those reads all gave a positive count and delivered `4 * W` bytes in total; and
a result that is zero or negative, met before `4 * W` bytes are there, makes it return `0`
with that read as its last. With the invalid sentinel as channel it returns `0` without any
low-level read, for every word count and script. -/
theorem mt7697_uart_read_exact (a : Arch) (uart_info : mt7697_uart_info) (W : Nat)
    (rs : List Int) (hfd : uart_info.fd_hndl ≠ NULL) (hW : 4 * W < ULONG_RANGE a)
    (hadm : ReadScript (4 * W) rs) (hend : Ends (4 * W) rs) :
    (∃ ret tr, mt7697_uart_read a uart_info W rs = (some ret, tr) ∧
      (ret = W ∨ ret = 0) ∧
      (∃ post, rs = results tr ++ post) ∧
      tr = transfers uart_info.fd_hndl (4 * W) 0 (results tr) ∧
      (ret = W ↔ (∀ x ∈ results tr, 0 < x) ∧ (results tr).sum = ((4 * W : Nat) : Int)) ∧
      (∀ pre r post, rs = pre ++ r :: post → (∀ x ∈ pre, 0 < x) →
        pre.sum < ((4 * W : Nat) : Int) → r ≤ 0 → ret = 0 ∧ results tr = pre ++ [r])) ∧
    (∀ (W2 : Nat) (rs2 : List Int),
      mt7697_uart_read a { uart_info with fd_hndl := MT7697_UART_INVALID_FD } W2 rs2
        = (some 0, [])) := by
  refine ⟨?_, fun W2 rs2 => by simp [mt7697_uart_read, MT7697_UART_INVALID_FD]⟩
  have hcount : (W * SIZEOF_U32) % ULONG_RANGE a = 4 * W := by
    rw [Nat.mod_eq_of_lt (by simp only [SIZEOF_U32]; omega)]
    simp only [SIZEOF_U32]; omega
  have hrun : mt7697_uart_read a uart_info W rs
      = read_loop a uart_info.fd_hndl W (4 * W) rs 0 0 (4 * W - 0) := by
    simp [mt7697_uart_read, hfd, hcount]
  have hstop : ∀ pre r post, rs = pre ++ r :: post → (∀ x ∈ pre, 0 < x) →
      pre.sum < ((4 * W : Nat) : Int) → r ≤ 0 →
      mt7697_uart_read a uart_info W rs
        = (some 0, transfers uart_info.fd_hndl (4 * W) 0 (pre ++ [r])) := by
    intro pre r post hrs hp hs hr
    rw [hrun, hrs]
    exact read_loop_stop a _ W (4 * W) hW pre post r 0 hp (by simpa using hs) hr
  rcases read_script_split rs (4 * W) hadm hend with
    ⟨pre, post, hrs, hp, hs⟩ | ⟨pre, r, post, hrs, hp, hs, hr⟩
  · have hfull : mt7697_uart_read a uart_info W rs
        = (some W, transfers uart_info.fd_hndl (4 * W) 0 pre) := by
      rw [hrun, hrs]
      exact read_loop_full a _ W (4 * W) hW pre post 0 hp (by simpa using hs)
    refine ⟨W, _, hfull, Or.inl rfl, ⟨post, by rw [results_transfers]; exact hrs⟩,
      by rw [results_transfers], ?_, ?_⟩
    · rw [results_transfers]
      exact ⟨fun _ => ⟨hp, hs⟩, fun _ => rfl⟩
    · intro pre2 r2 post2 hrs2 hp2 hs2 hr2
      have h2 := hstop pre2 r2 post2 hrs2 hp2 hs2 hr2
      rw [hfull] at h2
      have h3 := congrArg (fun p => results p.2) h2
      simp only [results_transfers] at h3
      have h4 : W = 0 := by simpa using congrArg (fun p => p.1) h2
      exact ⟨h4, by rw [results_transfers]; exact h3⟩
  · have h2 := hstop pre r post hrs hp hs hr
    have hW0 : 0 < W := by
      have := sum_nonneg_of_pos pre hp
      omega
    refine ⟨0, _, h2, Or.inr rfl, ⟨post, by rw [results_transfers]; simpa using hrs⟩,
      by rw [results_transfers], ?_, ?_⟩
    · rw [results_transfers]
      constructor
      · intro h; omega
      · rintro ⟨hall, -⟩
        have := hall r (by simp)
        omega
    · intro pre2 r2 post2 hrs2 hp2 hs2 hr2
      have h3 := hstop pre2 r2 post2 hrs2 hp2 hs2 hr2
      rw [h2] at h3
      have h4 := congrArg (fun p => results p.2) h3
      simp only [results_transfers] at h4
      exact ⟨rfl, by rw [results_transfers]; exact h4⟩

/-- Witness of `mt7697_uart_read_exact`: two words read in two pieces of 3 and 5 bytes. -/
theorem mt7697_uart_read_exact_witness :
    (∃ ret tr, mt7697_uart_read .ilp32 open_session 2 [3, 5] = (some ret, tr) ∧
      (ret = 2 ∨ ret = 0) ∧
      (∃ post, [3, 5] = results tr ++ post) ∧
      tr = transfers open_session.fd_hndl (4 * 2) 0 (results tr) ∧
      (ret = 2 ↔ (∀ x ∈ results tr, 0 < x) ∧ (results tr).sum = ((4 * 2 : Nat) : Int)) ∧
      (∀ pre r post, [3, 5] = pre ++ r :: post → (∀ x ∈ pre, 0 < x) →
        pre.sum < ((4 * 2 : Nat) : Int) → r ≤ 0 → ret = 0 ∧ results tr = pre ++ [r])) ∧
    (∀ (W2 : Nat) (rs2 : List Int),
      mt7697_uart_read .ilp32 { open_session with fd_hndl := MT7697_UART_INVALID_FD } W2 rs2
        = (some 0, [])) :=
  mt7697_uart_read_exact .ilp32 open_session 2 [3, 5] (by decide) (by decide)
    ⟨by decide, fun _ => ⟨by decide, fun _ => trivial⟩⟩ (Or.inr (by decide))

/-- Counterexample to C1 as stated: on the 32-bit data model the byte count of `2 ^ 30` words
wraps to `0`, so the read on a valid channel returns `W = 2 ^ 30` without a single low-level
read, that is with `0` bytes delivered and not `4 * W`. -/
theorem mt7697_uart_read_wraps :
    mt7697_uart_read .ilp32 open_session 1073741824 [] = (some 1073741824, []) ∧
    open_session.fd_hndl ≠ MT7697_UART_INVALID_FD ∧
    (results ([] : List IoCall)).sum ≠ ((4 * 1073741824 : Nat) : Int) := by
  refine ⟨?_, by decide, by decide⟩
  decide

/-! ## Framed write -/

theorem LEN_TO_WORD_words (a : Arch) (W : Nat) (hW : 4 * W < ULONG_RANGE a) :
    LEN_TO_WORD (4 * W) % ULONG_RANGE a = W := by
  have h : LEN_TO_WORD (4 * W) = W := by
    simp only [LEN_TO_WORD, SIZEOF_U32]
    have h1 : 4 * W % 4 = 0 := by omega
    have h2 : 4 * W / 4 = W := by omega
    simp [h1, h2]
  rw [h]
  exact Nat.mod_eq_of_lt (by omega)

/-- C2, as amended: for every word count `W` whose byte count `4 * W` fits in a `size_t`,
every session with a valid channel and every script of low-level write results that are
non-negative counts of at most the bytes outstanding and let the transfer end,
`mt7697_uart_write` returns; the writes it issues take the results of the script in order,
each one at the buffer offset that is the sum of the previous counts and for exactly the
bytes outstanding; it returns `W` exactly when those writes all gave a non-zero count and
`4 * W` bytes in total; a write reporting zero bytes makes it return `0` with that write as
its last; and it never returns a value strictly between `0` and `W`. -/
theorem mt7697_uart_write_exact (a : Arch) (uart_info : mt7697_uart_info) (W : Nat)
    (rs : List Int) (hfd : uart_info.fd_hndl ≠ NULL) (hW : 4 * W < ULONG_RANGE a)
    (hadm : WriteScript (4 * W) rs) (hend : Ends (4 * W) rs) :
    ∃ ret tr, mt7697_uart_write a uart_info W rs = (some ret, tr) ∧
      (∃ post, rs = results tr ++ post) ∧
      tr = transfers uart_info.fd_hndl (4 * W) 0 (results tr) ∧
      (ret = W ↔ (∀ x ∈ results tr, 0 < x) ∧ (results tr).sum = ((4 * W : Nat) : Int)) ∧
      (∀ pre post, rs = pre ++ 0 :: post → (∀ x ∈ pre, 0 < x) →
        pre.sum < ((4 * W : Nat) : Int) → ret = 0 ∧ results tr = pre ++ [0]) ∧
      ¬ (0 < ret ∧ ret < W) := by
  have hcount : (W * SIZEOF_U32) % ULONG_RANGE a = 4 * W := by
    rw [Nat.mod_eq_of_lt (by simp only [SIZEOF_U32]; omega)]
    simp only [SIZEOF_U32]; omega
  have hrun : mt7697_uart_write a uart_info W rs
      = write_loop a uart_info.fd_hndl (4 * W) rs 0 0 (4 * W - 0) := by
    simp [mt7697_uart_write, hfd, hcount]
  have hstop : ∀ pre post, rs = pre ++ 0 :: post → (∀ x ∈ pre, 0 < x) →
      pre.sum < ((4 * W : Nat) : Int) →
      mt7697_uart_write a uart_info W rs
        = (some 0, transfers uart_info.fd_hndl (4 * W) 0 (pre ++ [0])) := by
    intro pre post hrs hp hs
    rw [hrun, hrs]
    exact write_loop_stop a _ (4 * W) hW pre post 0 hp (by simpa using hs)
  rcases write_script_split rs (4 * W) hadm hend with
    ⟨pre, post, hrs, hp, hs⟩ | ⟨pre, post, hrs, hp, hs⟩
  · have hfull : mt7697_uart_write a uart_info W rs
        = (some W, transfers uart_info.fd_hndl (4 * W) 0 pre) := by
      rw [hrun, hrs, write_loop_full a _ (4 * W) hW pre post 0 hp (by simpa using hs),
        LEN_TO_WORD_words a W hW]
    refine ⟨W, _, hfull, ⟨post, by rw [results_transfers]; exact hrs⟩,
      by rw [results_transfers], ?_, ?_, by omega⟩
    · rw [results_transfers]
      exact ⟨fun _ => ⟨hp, hs⟩, fun _ => rfl⟩
    · intro pre2 post2 hrs2 hp2 hs2
      have h2 := hstop pre2 post2 hrs2 hp2 hs2
      rw [hfull] at h2
      have h3 := congrArg (fun p => results p.2) h2
      simp only [results_transfers] at h3
      have h4 : W = 0 := by simpa using congrArg (fun p => p.1) h2
      exact ⟨h4, by rw [results_transfers]; exact h3⟩
  · have h2 := hstop pre post hrs hp hs
    have hW0 : 0 < W := by
      have := sum_nonneg_of_pos pre hp
      omega
    refine ⟨0, _, h2, ⟨post, by rw [results_transfers]; simpa using hrs⟩,
      by rw [results_transfers], ?_, ?_, by omega⟩
    · rw [results_transfers]
      constructor
      · intro h; omega
      · rintro ⟨hall, -⟩
        have := hall 0 (by simp)
        omega
    · intro pre2 post2 hrs2 hp2 hs2
      have h3 := hstop pre2 post2 hrs2 hp2 hs2
      rw [h2] at h3
      have h4 := congrArg (fun p => results p.2) h3
      simp only [results_transfers] at h4
      exact ⟨rfl, by rw [results_transfers]; exact h4⟩

/-- Witness of `mt7697_uart_write_exact`: two words written in two pieces of 3 and 5 bytes. -/
theorem mt7697_uart_write_exact_witness :
    ∃ ret tr, mt7697_uart_write .lp64 open_session 2 [3, 5] = (some ret, tr) ∧
      (∃ post, [3, 5] = results tr ++ post) ∧
      tr = transfers open_session.fd_hndl (4 * 2) 0 (results tr) ∧
      (ret = 2 ↔ (∀ x ∈ results tr, 0 < x) ∧ (results tr).sum = ((4 * 2 : Nat) : Int)) ∧
      (∀ pre post, [3, 5] = pre ++ 0 :: post → (∀ x ∈ pre, 0 < x) →
        pre.sum < ((4 * 2 : Nat) : Int) → ret = 0 ∧ results tr = pre ++ [0]) ∧
      ¬ (0 < ret ∧ ret < 2) :=
  mt7697_uart_write_exact .lp64 open_session 2 [3, 5] (by decide) (by decide)
    ⟨by decide, by decide, fun _ => ⟨by decide, by decide, fun _ => trivial⟩⟩
    (Or.inr (by decide))

/-- Counterexample to C2 as stated: on the 32-bit data model the byte count of `2 ^ 30 + 1`
words wraps to `4`; one low-level write of 4 bytes ends the loop and the write returns `1`,
a value strictly between `0` and `W`. -/
theorem mt7697_uart_write_wraps :
    mt7697_uart_write .ilp32 open_session 1073741825 [4] = (some 1, [⟨3, 0, 4, 0, 4⟩]) ∧
    WriteScript (4 * 1073741825) [4] ∧ 0 < 1 ∧ 1 < 1073741825 := by
  refine ⟨by decide, ⟨by decide, by decide, fun _ => trivial⟩, by decide, by decide⟩

/-- C3, the code at the failing input: the first low-level write of a one-word transfer
fails with `-EIO` (`-5`). The error, stored in the unsigned `num_write`, counts as
`2 ^ BITS_PER_LONG - 5` bytes written: the loop is left normally and the write returns a
non-zero word count, on both data models, where the claim has `0`. -/
theorem mt7697_uart_write_error_as_count :
    mt7697_uart_write .ilp32 open_session 1 [-5] = (some 1073741823, [⟨3, 0, 4, 0, -5⟩]) ∧
    mt7697_uart_write .lp64 open_session 1 [-5]
      = (some 4611686018427387903, [⟨3, 0, 4, 0, -5⟩]) ∧
    mt7697_uart_read .ilp32 open_session 1 [-5] = (some 0, [⟨3, 0, 4, 0, -5⟩]) := by
  refine ⟨by decide, by decide, by decide⟩

/-! ## Session lifecycle -/

/-- C4, as amended: for every session with a valid channel and every result `r` of the
channel close, `mt7697_uart_close` raises the stop flag, closes the channel and returns `r`.
When `r` is not negative it then waits for `worker_done`, joins the worker, and the session's
channel is the invalid sentinel when it returns. When `r` is a negative channel-close error it
returns right after the channel close: it neither waits nor joins, and the session keeps its
channel handle and the raised stop flag. -/
theorem mt7697_uart_close_valid (uart_info : mt7697_uart_info) (r : Int) (worker_done : Bool)
    (hfd : uart_info.fd_hndl ≠ MT7697_UART_INVALID_FD) :
    (mt7697_uart_close uart_info r worker_done).1 = r ∧
    (0 ≤ r →
      (mt7697_uart_close uart_info r worker_done).2.1.fd_hndl = MT7697_UART_INVALID_FD ∧
      (mt7697_uart_close uart_info r worker_done).2.1.close = !worker_done ∧
      (mt7697_uart_close uart_info r worker_done).2.2 =
        [.filp_close uart_info.fd_hndl, .wait_event_interruptible, .cancel_work_sync]) ∧
    (r < 0 →
      (mt7697_uart_close uart_info r worker_done).2.1 = { uart_info with close := true } ∧
      (mt7697_uart_close uart_info r worker_done).2.2 = [.filp_close uart_info.fd_hndl]) := by
  have hfd2 : uart_info.fd_hndl ≠ NULL := hfd
  refine ⟨?_, ?_, ?_⟩
  · by_cases hr : r < 0 <;> simp [mt7697_uart_close, hr]
  · intro hr
    have : ¬ r < 0 := by omega
    cases worker_done <;> simp [mt7697_uart_close, this, hfd2]
  · intro hr
    simp [mt7697_uart_close, hr, hfd2]

/-- Witness of `mt7697_uart_close_valid`: the open session, channel close failing with `-5`. -/
theorem mt7697_uart_close_valid_witness :
    (mt7697_uart_close open_session (-5) true).1 = -5 ∧
    (0 ≤ (-5 : Int) →
      (mt7697_uart_close open_session (-5) true).2.1.fd_hndl = MT7697_UART_INVALID_FD ∧
      (mt7697_uart_close open_session (-5) true).2.1.close = !true ∧
      (mt7697_uart_close open_session (-5) true).2.2 =
        [.filp_close open_session.fd_hndl, .wait_event_interruptible, .cancel_work_sync]) ∧
    ((-5 : Int) < 0 →
      (mt7697_uart_close open_session (-5) true).2.1 = { open_session with close := true } ∧
      (mt7697_uart_close open_session (-5) true).2.2 = [.filp_close open_session.fd_hndl]) :=
  mt7697_uart_close_valid open_session (-5) true (by decide)

/-- Counterexample to C4 as stated: the channel close of an open session fails with `-5`;
`mt7697_uart_close` returns `-5` and the session still has its handle `3`, not the invalid
sentinel, and the stop flag stays raised. -/
theorem mt7697_uart_close_error_keeps_channel :
    mt7697_uart_close open_session (-5) true
      = (-5, ⟨3, ⟨⟨0⟩, 0⟩, 7, 9, true⟩, [.filp_close 3]) ∧
    (mt7697_uart_close open_session (-5) true).2.1.fd_hndl ≠ MT7697_UART_INVALID_FD := by
  refine ⟨by decide, by decide⟩

/-- C6, the code at the failing input: `mt7697_uart_close` on the never-opened session.
Whatever the kernel answers, the call does not fail at the test of the handle: after the
warning its next step is the channel close on the invalid handle. The sibling operations
`mt7697_uart_read` and `mt7697_uart_write` fail at once on the same session, without any
low-level call. -/
theorem mt7697_uart_close_not_open_uses_handle :
    closed_session.fd_hndl = MT7697_UART_INVALID_FD ∧
    (∀ (r : Int) (worker_done : Bool),
      (mt7697_uart_close closed_session r worker_done).2.2.take 2
        = [.warn_on, .filp_close MT7697_UART_INVALID_FD]) ∧
    (∀ (a : Arch) (W : Nat) (rs : List Int),
      mt7697_uart_read a closed_session W rs = (some 0, [])) ∧
    (∀ (a : Arch) (W : Nat) (rs : List Int),
      mt7697_uart_write a closed_session W rs = (some 0, [])) := by
  refine ⟨rfl, ?_, ?_, ?_⟩
  · intro r worker_done
    by_cases hr : r < 0
    · simp [mt7697_uart_close, closed_session, MT7697_UART_INVALID_FD, hr]
    · simp [mt7697_uart_close, closed_session, MT7697_UART_INVALID_FD, hr]
  · intro a W rs
    simp [mt7697_uart_read, closed_session, MT7697_UART_INVALID_FD]
  · intro a W rs
    simp [mt7697_uart_write, closed_session, MT7697_UART_INVALID_FD]

/-- C5, as amended: for every session whose channel is already open, `mt7697_uart_open` only
warns and then goes on as for a session that is not open: it opens the channel again; when
that succeeds it replaces the session's handle, stores the callback and context, schedules
the receive work and returns the session; when that fails it sets the channel to the invalid
sentinel, leaves callback and context as they were, schedules nothing, releases nothing and
returns the failure reference. -/
theorem mt7697_uart_open_twice (rx_fcn rx_hndl : Ptr) (uart_info : mt7697_uart_info)
    (ind : Option mt7697_uart_info) (hfd : uart_info.fd_hndl ≠ MT7697_UART_INVALID_FD) :
    (∀ p, mt7697_uart_open rx_fcn rx_hndl ⟨true, true, some uart_info, .file p, ind⟩ =
      some ⟨some { uart_info with fd_hndl := p, rx_fcn := rx_fcn, rx_hndl := rx_hndl },
            some { uart_info with fd_hndl := p, rx_fcn := rx_fcn, rx_hndl := rx_hndl },
            [.warn_on, .filp_open, .schedule_work]⟩) ∧
    (∀ e, mt7697_uart_open rx_fcn rx_hndl ⟨true, true, some uart_info, .err e, ind⟩ =
      some ⟨none, some { uart_info with fd_hndl := MT7697_UART_INVALID_FD },
            [.warn_on, .filp_open]⟩) := by
  have hfd2 : uart_info.fd_hndl ≠ NULL := hfd
  constructor
  · intro p
    simp [mt7697_uart_open, open_cleanup, hfd2]
  · intro e
    simp [mt7697_uart_open, open_cleanup, hfd2, MT7697_UART_INVALID_FD]

/-- Witness of `mt7697_uart_open_twice`: a second open on the open session. -/
theorem mt7697_uart_open_twice_witness :
    (∀ p, mt7697_uart_open 11 13 ⟨true, true, some open_session, .file p, none⟩ =
      some ⟨some { open_session with fd_hndl := p, rx_fcn := 11, rx_hndl := 13 },
            some { open_session with fd_hndl := p, rx_fcn := 11, rx_hndl := 13 },
            [.warn_on, .filp_open, .schedule_work]⟩) ∧
    (∀ e, mt7697_uart_open 11 13 ⟨true, true, some open_session, .err e, none⟩ =
      some ⟨none, some { open_session with fd_hndl := MT7697_UART_INVALID_FD },
            [.warn_on, .filp_open]⟩) :=
  mt7697_uart_open_twice 11 13 open_session none (by decide)

/-- Counterexample to C5 as stated: a second open on the open session (handle `3`, callback
`7`, context `9`) does not fail: it opens the channel again, replaces handle, callback and
context by `4`, `11`, `13`, schedules the receive work and returns the session. -/
theorem mt7697_uart_open_twice_succeeds :
    open_session.fd_hndl ≠ MT7697_UART_INVALID_FD ∧
    mt7697_uart_open 11 13 ⟨true, true, some open_session, .file 4, none⟩ =
      some ⟨some ⟨4, ⟨⟨0⟩, 0⟩, 11, 13, false⟩, some ⟨4, ⟨⟨0⟩, 0⟩, 11, 13, false⟩,
            [.warn_on, .filp_open, .schedule_work]⟩ := by
  refine ⟨by decide, by decide⟩

/-- The part of C8 the code keeps: when the channel open fails on a session that is not open,
`mt7697_uart_open` returns the failure reference, the session's channel is the invalid
sentinel, callback and context are as they were, and nothing is scheduled or released. -/
theorem mt7697_uart_open_channel_failure (rx_fcn rx_hndl : Ptr) (uart_info : mt7697_uart_info)
    (ind : Option mt7697_uart_info) (e : Int)
    (hfd : uart_info.fd_hndl = MT7697_UART_INVALID_FD) :
    mt7697_uart_open rx_fcn rx_hndl ⟨true, true, some uart_info, .err e, ind⟩ =
      some ⟨none, some uart_info, [.filp_open]⟩ := by
  have hfd2 : uart_info.fd_hndl = NULL := hfd
  obtain ⟨fd, rsp, f, c, cl⟩ := uart_info
  simp only at hfd2
  subst hfd2
  simp [mt7697_uart_open, open_cleanup, MT7697_UART_INVALID_FD]

/-- C8, the code at the failing inputs. When the device is not found, `cleanup` reads
`fd_hndl` through the local `uart_info`, which was never assigned: where that pointer
designates no object the call faults instead of returning the failure reference, and where it
happens to designate a session with handle `3` the call releases that handle. When the
device has no session object, `uart_info` is null and `cleanup` dereferences it. -/
theorem mt7697_uart_open_not_found :
    mt7697_uart_open 11 13 ⟨false, false, none, .file 4, none⟩ = none ∧
    mt7697_uart_open 11 13 ⟨false, false, none, .file 4, some open_session⟩ =
      some ⟨none, none, [.fput 3]⟩ ∧
    mt7697_uart_open 11 13 ⟨true, true, none, .file 4, some open_session⟩ = none := by
  refine ⟨by decide, by decide, by decide⟩

/-! ## Readiness poller -/

theorem lor_eq_zero (x y : Nat) : x ||| y = 0 ↔ x = 0 ∧ y = 0 := by
  constructor
  · intro h
    have hb : ∀ i, x.testBit i = false ∧ y.testBit i = false := by
      intro i
      have := congrArg (fun n => n.testBit i) h
      simpa using this
    exact ⟨Nat.eq_of_testBit_eq (fun i => by simp [(hb i).1]),
      Nat.eq_of_testBit_eq (fun i => by simp [(hb i).2])⟩
  · rintro ⟨rfl, rfl⟩
    simp

/-- The test of the code on the mask is the readiness condition of the contract. -/
theorem ready_iff (m : Nat) :
    m &&& (POLLRDNORM ||| POLLRDBAND ||| POLLIN ||| POLLHUP ||| POLLERR) ≠ 0 ↔ Ready m := by
  simp only [Ready, Nat.and_or_distrib_left, ne_eq, lor_eq_zero]
  tauto

theorem count_freewait_waited (fd : Ptr) (pre : List PollObs) :
    (waited fd pre).count .poll_freewait = 0 := by
  induction pre with
  | nil => rfl
  | cons o pre ih =>
    simp only [waited, List.flatMap_cons] at ih ⊢
    simp [List.count_cons, ih]

/-- Iterations that meet no terminal condition are passed with one poll and one wait each. -/
theorem rx_poll_loop_waits (fd : Ptr) (pre rest : List PollObs) (hpre : ∀ o ∈ pre, Waits o) :
    rx_poll_loop fd (pre ++ rest)
      = ((rx_poll_loop fd rest).1, waited fd pre ++ (rx_poll_loop fd rest).2) := by
  induction pre with
  | nil => simp [waited]
  | cons o pre ih =>
    obtain ⟨m, hm, hready, hsig, hsched⟩ := hpre o (by simp)
    have hih := ih (fun x hx => hpre x (by simp [hx]))
    have hmask : ¬ m &&& (POLLRDNORM ||| POLLRDBAND ||| POLLIN ||| POLLHUP ||| POLLERR) ≠ 0 :=
      fun h => hready ((ready_iff m).mp h)
    simp only [List.cons_append, rx_poll_loop, hm, hmask, if_false, hsig, hsched,
      Bool.false_eq_true, List.append_eq, hih, waited, List.flatMap_cons, List.cons_append,
      List.nil_append]

/-- C10: for every sequence of observations in which the iterations of `pre` meet no
terminal condition and the next iteration `t` meets one, `mt7697_uart_rx_poll` returns, after
one poll and one scheduling wait per iteration of `pre`, the verdict of `t`: success (`0`)
exactly when the channel can be polled and the mask of `t` has one of the readiness bits;
`-EINVAL` when the channel has no poll function, with no poll and no wait in `t`; `-EINTR`
when no readiness bit is set and a signal is pending; `-ETIMEDOUT` when no readiness bit is
set, no signal is pending and the scheduling wait returns zero. The poll wait table is
released once, as the last thing the call does. -/
theorem mt7697_uart_rx_poll_decided (uart_info : mt7697_uart_info) (pre : List PollObs)
    (t : PollObs) (post : List PollObs) (hpre : ∀ o ∈ pre, Waits o) (ht : ¬ Waits t) :
    ∃ ret last,
      mt7697_uart_rx_poll uart_info (pre ++ t :: post)
        = (some ret, PollEvent.poll_initwait ::
            (waited uart_info.fd_hndl pre ++ last) ++ [PollEvent.poll_freewait]) ∧
      (ret = 0 ↔ ∃ m, t.poll = some m ∧ Ready m) ∧
      (t.poll = none → ret = -EINVAL ∧ last = []) ∧
      (∀ m, t.poll = some m → Ready m → last = [.poll uart_info.fd_hndl]) ∧
      (∀ m, t.poll = some m → ¬ Ready m → t.signal_pending = true →
        ret = -EINTR ∧ last = [.poll uart_info.fd_hndl]) ∧
      (∀ m, t.poll = some m → ¬ Ready m → t.signal_pending = false →
        t.schedule_timeout = 0 →
        ret = -ETIMEDOUT ∧
        last = [.poll uart_info.fd_hndl, .schedule_timeout_interruptible]) ∧
      (PollEvent.poll_initwait ::
        (waited uart_info.fd_hndl pre ++ last) ++ [PollEvent.poll_freewait]).count
          .poll_freewait = 1 := by
  have hcount : ∀ last : List PollEvent, last.count .poll_freewait = 0 →
      (PollEvent.poll_initwait ::
        (waited uart_info.fd_hndl pre ++ last) ++ [PollEvent.poll_freewait]).count
          .poll_freewait = 1 := by
    intro last hl
    simp [List.count_cons, List.count_append, count_freewait_waited, hl]
  have hrun : ∀ ret last, rx_poll_loop uart_info.fd_hndl (t :: post) = (some ret, last) →
      mt7697_uart_rx_poll uart_info (pre ++ t :: post)
        = (some ret, PollEvent.poll_initwait ::
            (waited uart_info.fd_hndl pre ++ last) ++ [PollEvent.poll_freewait]) := by
    intro ret last h
    simp [mt7697_uart_rx_poll, rx_poll_loop_waits _ pre (t :: post) hpre, h]
  cases hp : t.poll with
  | none =>
    refine ⟨-EINVAL, [], hrun _ _ (by simp [rx_poll_loop, hp]), ?_, ?_, ?_, ?_, ?_, hcount _ rfl⟩
    · simp [EINVAL]
    · intro _; exact ⟨rfl, rfl⟩
    · intro m hm; simp at hm
    · intro m hm; simp at hm
    · intro m hm; simp at hm
  | some m =>
    by_cases hready : Ready m
    · have hmask := (ready_iff m).mpr hready
      refine ⟨0, [.poll uart_info.fd_hndl], hrun _ _ (by simp [rx_poll_loop, hp, hmask]),
        ?_, ?_, ?_, ?_, ?_, hcount _ (by simp [List.count_cons])⟩
      · exact ⟨fun _ => ⟨m, rfl, hready⟩, fun _ => rfl⟩
      · intro h; simp at h
      · intro _ _ _; rfl
      · intro m2 hm2 hn; simp at hm2; subst hm2; exact absurd hready hn
      · intro m2 hm2 hn; simp at hm2; subst hm2; exact absurd hready hn
    · have hmask : ¬ m &&& (POLLRDNORM ||| POLLRDBAND ||| POLLIN ||| POLLHUP ||| POLLERR) ≠ 0 :=
        fun h => hready ((ready_iff m).mp h)
      cases hsig : t.signal_pending with
      | true =>
        refine ⟨-EINTR, [.poll uart_info.fd_hndl],
          hrun _ _ (by simp [rx_poll_loop, hp, hmask, hsig]),
          ?_, ?_, ?_, ?_, ?_, hcount _ (by simp [List.count_cons])⟩
        · constructor
          · intro h; simp [EINTR] at h
          · rintro ⟨m2, hm2, hr2⟩; simp at hm2; subst hm2; exact absurd hr2 hready
        · intro h; simp at h
        · intro m2 hm2 hr2; simp at hm2; subst hm2; exact absurd hr2 hready
        · intro _ _ _ _; exact ⟨rfl, rfl⟩
        · intro _ _ _ h; simp at h
      | false =>
        have hsched : t.schedule_timeout = 0 := by
          by_contra hne
          exact ht ⟨m, hp, hready, hsig, hne⟩
        refine ⟨-ETIMEDOUT, [.poll uart_info.fd_hndl, .schedule_timeout_interruptible],
          hrun _ _ (by simp [rx_poll_loop, hp, hmask, hsig, hsched]),
          ?_, ?_, ?_, ?_, ?_, hcount _ (by simp [List.count_cons])⟩
        · constructor
          · intro h; simp [ETIMEDOUT] at h
          · rintro ⟨m2, hm2, hr2⟩; simp at hm2; subst hm2; exact absurd hr2 hready
        · intro h; simp at h
        · intro m2 hm2 hr2; simp at hm2; subst hm2; exact absurd hr2 hready
        · intro _ _ _ h; simp at h
        · intro _ _ _ _ _; exact ⟨rfl, rfl⟩

/-! ## Receive worker -/

theorem served_fields (u : mt7697_uart_info) (its : List Iter) :
    (served u its).fd_hndl = u.fd_hndl ∧ (served u its).close = u.close ∧
    (served u its).rx_fcn = u.rx_fcn ∧ (served u its).rx_hndl = u.rx_hndl := by
  induction its generalizing u with
  | nil => exact ⟨rfl, rfl, rfl, rfl⟩
  | cons it its ih => exact ih _

theorem rx_poll_fd (u v : mt7697_uart_info) (h : v.fd_hndl = u.fd_hndl) (obs : List PollObs) :
    mt7697_uart_rx_poll v obs = mt7697_uart_rx_poll u obs := by
  simp [mt7697_uart_rx_poll, h]

theorem uart_read_fd (a : Arch) (u v : mt7697_uart_info) (h : v.fd_hndl = u.fd_hndl) (W : Nat)
    (rs : List Int) : mt7697_uart_read a v W rs = mt7697_uart_read a u W rs := by
  simp [mt7697_uart_read, h]

theorem delivered_fd (a : Arch) (sz : Nat) (u v : mt7697_uart_info)
    (h : v.fd_hndl = u.fd_hndl) (hf : v.rx_fcn = u.rx_fcn) (hc : v.rx_hndl = u.rx_hndl)
    (its : List Iter) : delivered a sz v its = delivered a sz u its := by
  simp only [delivered, hf, hc]
  congr 1
  funext it
  rw [rx_poll_fd u v h, uart_read_fd a u v h]

theorem delivered_cons (a : Arch) (sz : Nat) (u : mt7697_uart_info) (it : Iter)
    (its : List Iter) :
    delivered a sz u (it :: its) =
      .rx_poll (mt7697_uart_rx_poll u it.polls).2 ::
      .uart_read (mt7697_uart_read a u (hdr_words sz) it.reads).2 ::
      .rx_fcn u.rx_fcn it.rsp u.rx_hndl :: delivered a sz u its := by
  simp [delivered]

/-- One delivering iteration: wait, read, callback with the header just read and the
registered context, then the rest of the run on the session with the new header. -/
theorem rx_work_step (a : Arch) (sz : Nat) (u : mt7697_uart_info) (it : Iter)
    (its : List Iter) (h : Delivers a sz u it) :
    mt7697_uart_rx_work a sz u (it :: its) =
      (mt7697_uart_rx_work a sz { u with rsp := it.rsp } its).map fun out =>
        (out.1, .rx_poll (mt7697_uart_rx_poll u it.polls).2 ::
          .uart_read (mt7697_uart_read a u (hdr_words sz) it.reads).2 ::
          .rx_fcn u.rx_fcn it.rsp u.rx_hndl :: out.2) := by
  obtain ⟨hp, hc, hs, hr⟩ := h
  simp only [hdr_words] at hr ⊢
  simp [mt7697_uart_rx_work, hp, hc, hs, hr]

/-- A run of delivering iterations, then whatever follows. -/
theorem rx_work_run (a : Arch) (sz : Nat) (u : mt7697_uart_info) (good rest : List Iter)
    (hgood : ∀ it ∈ good, Delivers a sz u it) :
    mt7697_uart_rx_work a sz u (good ++ rest) =
      (mt7697_uart_rx_work a sz (served u good) rest).map fun out =>
        (out.1, delivered a sz u good ++ out.2) := by
  induction good generalizing u with
  | nil => simp [served, delivered]
  | cons it good ih =>
    have h1 := hgood it (by simp)
    have h2 : ∀ x ∈ good, Delivers a sz { u with rsp := it.rsp } x := by
      intro x hx
      exact hgood x (by simp [hx])
    rw [List.cons_append, rx_work_step a sz u it _ h1, ih _ h2, Option.map_map,
      delivered_cons, delivered_fd a sz u { u with rsp := it.rsp } rfl rfl rfl]
    rfl

/-- Last iteration, readiness wait failed: no read, no callback, exit. -/
theorem rx_work_last_poll (a : Arch) (sz : Nat) (v : mt7697_uart_info) (t : Iter)
    (rest : List Iter) (r : Int) (hp : (mt7697_uart_rx_poll v t.polls).1 = some r)
    (hr : r ≠ 0) :
    mt7697_uart_rx_work a sz v (t :: rest) =
      some ({ v with close := false },
        [.rx_poll (mt7697_uart_rx_poll v t.polls).2, .wake_up_interruptible]) := by
  simp [mt7697_uart_rx_work, hp, hr, rx_work_cleanup]

/-- Last iteration, stop flag set when the readiness wait returns: no read, no callback,
exit. -/
theorem rx_work_last_stop (a : Arch) (sz : Nat) (v : mt7697_uart_info) (t : Iter)
    (rest : List Iter) (hp : (mt7697_uart_rx_poll v t.polls).1 = some 0)
    (hstop : v.close = true ∨ t.stop = true) :
    mt7697_uart_rx_work a sz v (t :: rest) =
      some ({ v with close := false },
        [.rx_poll (mt7697_uart_rx_poll v t.polls).2, .wake_up_interruptible]) := by
  cases hs : t.stop with
  | true => simp [mt7697_uart_rx_work, hp, hs, rx_work_cleanup]
  | false =>
    have hc : v.close = true := by
      rcases hstop with h | h
      · exact h
      · rw [hs] at h; exact absurd h (by decide)
    simp [mt7697_uart_rx_work, hp, hs, hc, rx_work_cleanup]

/-- Last iteration, the framed read returns another count than the header word count: no
callback, exit. -/
theorem rx_work_last_read (a : Arch) (sz : Nat) (v : mt7697_uart_info) (t : Iter)
    (rest : List Iter) (n : Nat) (hp : (mt7697_uart_rx_poll v t.polls).1 = some 0)
    (hc : v.close = false) (hs : t.stop = false)
    (hread : (mt7697_uart_read a v (hdr_words sz) t.reads).1 = some n)
    (hn : n ≠ hdr_words sz) :
    mt7697_uart_rx_work a sz v (t :: rest) =
      some ({ v with rsp := t.rsp, close := false },
        [.rx_poll (mt7697_uart_rx_poll v t.polls).2,
         .uart_read (mt7697_uart_read a v (hdr_words sz) t.reads).2,
         .wake_up_interruptible]) := by
  simp only [hdr_words] at hread hn ⊢
  simp [mt7697_uart_rx_work, hp, hs, hc, hread, hn, rx_work_cleanup]

theorem callbacks_append (xs ys : List WorkEvent) :
    callbacks (xs ++ ys) = callbacks xs ++ callbacks ys := by
  induction xs with
  | nil => rfl
  | cons x xs ih => cases x <;> simp [callbacks, ih]

theorem callbacks_delivered (a : Arch) (sz : Nat) (u : mt7697_uart_info) (its : List Iter) :
    callbacks (delivered a sz u its) = its.map fun it => (u.rx_fcn, it.rsp, u.rx_hndl) := by
  induction its with
  | nil => rfl
  | cons it its ih => rw [delivered_cons]; simp only [callbacks, ih, List.map_cons]

theorem count_wake_delivered (a : Arch) (sz : Nat) (u : mt7697_uart_info) (its : List Iter) :
    (delivered a sz u its).count .wake_up_interruptible = 0 := by
  induction its with
  | nil => rfl
  | cons it its ih => rw [delivered_cons]; simp [List.count_cons, ih]

theorem LEN_TO_WORD_pos (sz : Nat) (h : 0 < sz) : 0 < LEN_TO_WORD sz := by
  simp only [LEN_TO_WORD, SIZEOF_U32]
  split <;> omega

/-- A successful open returns the session with the callback and context it was given. -/
theorem open_registers (rx_fcn rx_hndl : Ptr) (env : OpenEnv) (u : mt7697_uart_info)
    (d : Option mt7697_uart_info) (ev : List LifeEvent)
    (h : mt7697_uart_open rx_fcn rx_hndl env = some ⟨some u, d, ev⟩) :
    u.rx_fcn = rx_fcn ∧ u.rx_hndl = rx_hndl := by
  obtain ⟨dev, uart, drv, filp, ind⟩ := env
  have hc : ∀ (x y : Option mt7697_uart_info) (e : List LifeEvent),
      open_cleanup none x y e ≠ some ⟨some u, d, ev⟩ := by
    intro x y e hx
    unfold open_cleanup at hx
    simp only at hx
    split at hx
    · exact absurd hx (by simp)
    · split at hx <;> simp at hx
  cases dev with
  | false => exact absurd h (by simpa [mt7697_uart_open] using hc _ _ _)
  | true =>
    cases uart with
    | false => exact absurd h (by simpa [mt7697_uart_open] using hc _ _ _)
    | true =>
      cases drv with
      | none => exact absurd h (by simpa [mt7697_uart_open] using hc _ _ _)
      | some s =>
        cases filp with
        | err e => exact absurd h (by simpa [mt7697_uart_open] using hc _ _ _)
        | file p =>
          simp only [mt7697_uart_open, open_cleanup] at h
          simp at h
          obtain ⟨h1, -⟩ := h
          subst h1
          exact ⟨rfl, rfl⟩

/-- C7: a session `u` returned by `mt7697_uart_open rx_fcn rx_hndl`; `k` iterations of
`mt7697_uart_rx_work` in which the readiness wait succeeds, the stop flag is clear and the
framed read delivers a full header (any headers, any callback return values); then an
iteration that is terminal (readiness failure, stop flag set, or a read returning `0`). The
worker returns, and its callback invocations are exactly `k`, in arrival order, the i-th with
the i-th header and with the function and context registered at open; none is made in the
terminal iteration. -/
theorem mt7697_uart_rx_work_delivers (a : Arch) (sz : Nat) (rx_fcn rx_hndl : Ptr)
    (env : OpenEnv) (u : mt7697_uart_info) (d : Option mt7697_uart_info)
    (evo : List LifeEvent) (good : List Iter) (t : Iter) (rest : List Iter)
    (hopen : mt7697_uart_open rx_fcn rx_hndl env = some ⟨some u, d, evo⟩)
    (hsz : 0 < sz)
    (hgood : ∀ it ∈ good, Delivers a sz u it)
    (hterm : Terminal a sz u t) :
    ∃ u2 ev, mt7697_uart_rx_work a sz u (good ++ t :: rest) = some (u2, ev) ∧
      callbacks ev = good.map (fun it => (rx_fcn, it.rsp, rx_hndl)) ∧
      (callbacks ev).length = good.length := by
  obtain ⟨hf, hh⟩ := open_registers rx_fcn rx_hndl env u d evo hopen
  obtain ⟨hfd, hcl, -, -⟩ := served_fields u good
  have hpoll := rx_poll_fd u (served u good) hfd t.polls
  have hread := uart_read_fd a u (served u good) hfd (hdr_words sz) t.reads
  have key : ∀ v tail,
      mt7697_uart_rx_work a sz (served u good) (t :: rest) = some (v, tail) →
      callbacks tail = [] →
      ∃ u2 ev, mt7697_uart_rx_work a sz u (good ++ t :: rest) = some (u2, ev) ∧
        callbacks ev = good.map (fun it => (rx_fcn, it.rsp, rx_hndl)) ∧
        (callbacks ev).length = good.length := by
    intro v tail hrun htail
    have hcb : callbacks (delivered a sz u good ++ tail)
        = good.map (fun it => (rx_fcn, it.rsp, rx_hndl)) := by
      rw [callbacks_append, callbacks_delivered, htail, hf, hh, List.append_nil]
    refine ⟨v, delivered a sz u good ++ tail, ?_, hcb, ?_⟩
    · rw [rx_work_run a sz u good (t :: rest) hgood, hrun]
      rfl
    · rw [hcb, List.length_map]
  rcases hterm with ⟨r, hp, hr⟩ | ⟨hp, hstop⟩ | ⟨hp, hc, hs, hrd⟩
  · exact key _ _
      (rx_work_last_poll a sz (served u good) t rest r (by rw [hpoll]; exact hp) hr) rfl
  · exact key _ _
      (rx_work_last_stop a sz (served u good) t rest (by rw [hpoll]; exact hp)
        (by rw [hcl]; exact hstop)) rfl
  · have hne : (0 : Nat) ≠ hdr_words sz := by
      have := LEN_TO_WORD_pos sz hsz
      simp only [hdr_words]
      omega
    exact key _ _
      (rx_work_last_read a sz (served u good) t rest 0 (by rw [hpoll]; exact hp)
        (by rw [hcl]; exact hc) hs (by rw [hread]; exact hrd) hne) rfl

/-- Witness of `mt7697_uart_rx_work_delivers`, the scenario of the contract: open with
callback `7` and context `9`, one header `{result = 0, type = 5}`, then end-of-stream. -/
theorem mt7697_uart_rx_work_delivers_witness :
    ∃ u2 ev, mt7697_uart_rx_work .ilp32 8 open_session
        ([header_iter] ++ peer_closed_iter :: []) = some (u2, ev) ∧
      callbacks ev = [header_iter].map (fun it => (7, it.rsp, 9)) ∧
      (callbacks ev).length = [header_iter].length :=
  mt7697_uart_rx_work_delivers .ilp32 8 7 9 ⟨true, true, some closed_session, .file 3, none⟩
    open_session (some open_session) [.filp_open, .schedule_work] [header_iter]
    peer_closed_iter [] (by decide) (by decide)
    (by
      intro it hit
      rw [List.mem_singleton] at hit
      subst hit
      exact ⟨by decide, by decide, by decide, by decide⟩)
    (Or.inr (Or.inr ⟨by decide, by decide, by decide, by decide⟩))

/-- C9: after any number of delivering iterations, each way the next iteration of
`mt7697_uart_rx_work` can fail ends the worker through the one exit path. If the readiness
wait fails, the iteration holds the wait only; if the stop flag is set when the wait returns,
the iteration holds the wait only; if the framed read returns a count other than the header
word count, the iteration holds the wait and the read and no callback. In each case the
wake-up of `worker_done` follows at once and is the last thing the worker does, with the stop
flag clear in the session. And every run that returns, whatever it observed, has the stop
flag clear, raises `worker_done` exactly once, and does so last. -/
theorem mt7697_uart_rx_work_exit (a : Arch) (sz : Nat) (u : mt7697_uart_info)
    (good : List Iter) (t : Iter) (rest : List Iter)
    (hgood : ∀ it ∈ good, Delivers a sz u it) :
    (∀ r, (mt7697_uart_rx_poll u t.polls).1 = some r → r ≠ 0 →
      mt7697_uart_rx_work a sz u (good ++ t :: rest) =
        some ({ served u good with close := false },
          delivered a sz u good ++
            [.rx_poll (mt7697_uart_rx_poll u t.polls).2, .wake_up_interruptible])) ∧
    ((mt7697_uart_rx_poll u t.polls).1 = some 0 → (u.close = true ∨ t.stop = true) →
      mt7697_uart_rx_work a sz u (good ++ t :: rest) =
        some ({ served u good with close := false },
          delivered a sz u good ++
            [.rx_poll (mt7697_uart_rx_poll u t.polls).2, .wake_up_interruptible])) ∧
    (∀ n, (mt7697_uart_rx_poll u t.polls).1 = some 0 → u.close = false → t.stop = false →
      (mt7697_uart_read a u (hdr_words sz) t.reads).1 = some n → n ≠ hdr_words sz →
      mt7697_uart_rx_work a sz u (good ++ t :: rest) =
        some ({ served u good with rsp := t.rsp, close := false },
          delivered a sz u good ++
            [.rx_poll (mt7697_uart_rx_poll u t.polls).2,
             .uart_read (mt7697_uart_read a u (hdr_words sz) t.reads).2,
             .wake_up_interruptible])) ∧
    (∀ (its : List Iter) (v u2 : mt7697_uart_info) (ev : List WorkEvent),
      mt7697_uart_rx_work a sz v its = some (u2, ev) →
      u2.close = false ∧ ev.count .wake_up_interruptible = 1 ∧
      ev.getLast? = some .wake_up_interruptible) := by
  obtain ⟨hfd, hcl, -, -⟩ := served_fields u good
  have hpoll := rx_poll_fd u (served u good) hfd t.polls
  have hread := uart_read_fd a u (served u good) hfd (hdr_words sz) t.reads
  refine ⟨?_, ?_, ?_, ?_⟩
  · intro r hp hr
    rw [rx_work_run a sz u good (t :: rest) hgood,
      rx_work_last_poll a sz (served u good) t rest r (by rw [hpoll]; exact hp) hr, hpoll]
    rfl
  · intro hp hstop
    rw [rx_work_run a sz u good (t :: rest) hgood,
      rx_work_last_stop a sz (served u good) t rest (by rw [hpoll]; exact hp)
        (by rw [hcl]; exact hstop), hpoll]
    rfl
  · intro n hp hc hs hrd hn
    rw [rx_work_run a sz u good (t :: rest) hgood,
      rx_work_last_read a sz (served u good) t rest n (by rw [hpoll]; exact hp)
        (by rw [hcl]; exact hc) hs (by rw [hread]; exact hrd) hn, hpoll, hread]
    rfl
  · intro its
    induction its with
    | nil => intro v u2 ev h; simp [mt7697_uart_rx_work] at h
    | cons it its ih =>
      intro v u2 ev h
      cases hp : (mt7697_uart_rx_poll v it.polls).1 with
      | none => simp [mt7697_uart_rx_work, hp] at h
      | some ret =>
        by_cases hr : ret ≠ 0
        · rw [rx_work_last_poll a sz v it its ret hp hr] at h
          simp only [Option.some.injEq, Prod.mk.injEq] at h
          obtain ⟨rfl, rfl⟩ := h
          exact ⟨rfl, by simp [List.count_cons], by simp⟩
        · have hr0 : ret = 0 := by simpa using hr
          subst hr0
          by_cases hstop : v.close = true ∨ it.stop = true
          · rw [rx_work_last_stop a sz v it its hp hstop] at h
            simp only [Option.some.injEq, Prod.mk.injEq] at h
            obtain ⟨rfl, rfl⟩ := h
            exact ⟨rfl, by simp [List.count_cons], by simp⟩
          · have hc : v.close = false := by
              cases hv : v.close with
              | false => rfl
              | true => exact absurd (Or.inl hv) hstop
            have hs : it.stop = false := by
              cases hv : it.stop with
              | false => rfl
              | true => exact absurd (Or.inr hv) hstop
            cases hrd : (mt7697_uart_read a v (hdr_words sz) it.reads).1 with
            | none =>
              simp only [hdr_words] at hrd
              simp [mt7697_uart_rx_work, hp, hc, hs, hrd] at h
            | some n =>
              by_cases hn : n = hdr_words sz
              · subst hn
                rw [rx_work_step a sz v it its ⟨hp, hc, hs, hrd⟩] at h
                obtain ⟨out, hout, hpair⟩ := Option.map_eq_some'.mp h
                simp only [Prod.mk.injEq] at hpair
                obtain ⟨rfl, rfl⟩ := hpair
                obtain ⟨h1, h2, h3⟩ := ih _ out.1 out.2 hout
                refine ⟨h1, by simp [List.count_cons, h2], ?_⟩
                obtain ⟨x, xs, hx⟩ : ∃ x xs, out.2 = x :: xs := by
                  cases hq : out.2 with
                  | nil => rw [hq] at h3; simp at h3
                  | cons x xs => exact ⟨x, xs, rfl⟩
                rw [hx] at h3 ⊢
                simpa [List.getLast?_cons_cons] using h3
              · rw [rx_work_last_read a sz v it its n hp hc hs hrd hn] at h
                simp only [Option.some.injEq, Prod.mk.injEq] at h
                obtain ⟨rfl, rfl⟩ := h
                exact ⟨rfl, by simp [List.count_cons], by simp⟩

/-- Witness of `mt7697_uart_rx_work_exit`: one header delivered, then end-of-stream. -/
theorem mt7697_uart_rx_work_exit_witness :
    (∀ r, (mt7697_uart_rx_poll open_session peer_closed_iter.polls).1 = some r → r ≠ 0 →
      mt7697_uart_rx_work .ilp32 8 open_session ([header_iter] ++ peer_closed_iter :: []) =
        some ({ served open_session [header_iter] with close := false },
          delivered .ilp32 8 open_session [header_iter] ++
            [.rx_poll (mt7697_uart_rx_poll open_session peer_closed_iter.polls).2,
             .wake_up_interruptible])) ∧
    ((mt7697_uart_rx_poll open_session peer_closed_iter.polls).1 = some 0 →
      (open_session.close = true ∨ peer_closed_iter.stop = true) →
      mt7697_uart_rx_work .ilp32 8 open_session ([header_iter] ++ peer_closed_iter :: []) =
        some ({ served open_session [header_iter] with close := false },
          delivered .ilp32 8 open_session [header_iter] ++
            [.rx_poll (mt7697_uart_rx_poll open_session peer_closed_iter.polls).2,
             .wake_up_interruptible])) ∧
    (∀ n, (mt7697_uart_rx_poll open_session peer_closed_iter.polls).1 = some 0 →
      open_session.close = false → peer_closed_iter.stop = false →
      (mt7697_uart_read .ilp32 open_session (hdr_words 8) peer_closed_iter.reads).1 = some n →
      n ≠ hdr_words 8 →
      mt7697_uart_rx_work .ilp32 8 open_session ([header_iter] ++ peer_closed_iter :: []) =
        some ({ served open_session [header_iter] with
                  rsp := peer_closed_iter.rsp, close := false },
          delivered .ilp32 8 open_session [header_iter] ++
            [.rx_poll (mt7697_uart_rx_poll open_session peer_closed_iter.polls).2,
             .uart_read
               (mt7697_uart_read .ilp32 open_session (hdr_words 8) peer_closed_iter.reads).2,
             .wake_up_interruptible])) ∧
    (∀ (its : List Iter) (v u2 : mt7697_uart_info) (ev : List WorkEvent),
      mt7697_uart_rx_work .ilp32 8 v its = some (u2, ev) →
      u2.close = false ∧ ev.count .wake_up_interruptible = 1 ∧
      ev.getLast? = some .wake_up_interruptible) :=
  mt7697_uart_rx_work_exit .ilp32 8 open_session [header_iter] peer_closed_iter []
    (by
      intro it hit
      rw [List.mem_singleton] at hit
      subst hit
      exact ⟨by decide, by decide, by decide, by decide⟩)

/-- Witness of `mt7697_uart_rx_poll_decided`: one iteration without readiness, signal or
timeout, then an iteration whose mask has input-ready and hang-up. -/
theorem mt7697_uart_rx_poll_decided_witness :
    ∃ ret last,
      mt7697_uart_rx_poll open_session ([⟨some 0, false, 1⟩] ++ ⟨some 17, false, 1⟩ :: [])
        = (some ret, PollEvent.poll_initwait ::
            (waited open_session.fd_hndl [⟨some 0, false, 1⟩] ++ last)
              ++ [PollEvent.poll_freewait]) ∧
      (ret = 0 ↔ ∃ m, (⟨some 17, false, 1⟩ : PollObs).poll = some m ∧ Ready m) ∧
      ((⟨some 17, false, 1⟩ : PollObs).poll = none → ret = -EINVAL ∧ last = []) ∧
      (∀ m, (⟨some 17, false, 1⟩ : PollObs).poll = some m → Ready m →
        last = [.poll open_session.fd_hndl]) ∧
      (∀ m, (⟨some 17, false, 1⟩ : PollObs).poll = some m → ¬ Ready m →
        (⟨some 17, false, 1⟩ : PollObs).signal_pending = true →
        ret = -EINTR ∧ last = [.poll open_session.fd_hndl]) ∧
      (∀ m, (⟨some 17, false, 1⟩ : PollObs).poll = some m → ¬ Ready m →
        (⟨some 17, false, 1⟩ : PollObs).signal_pending = false →
        (⟨some 17, false, 1⟩ : PollObs).schedule_timeout = 0 →
        ret = -ETIMEDOUT ∧
        last = [.poll open_session.fd_hndl, .schedule_timeout_interruptible]) ∧
      (PollEvent.poll_initwait ::
        (waited open_session.fd_hndl [⟨some 0, false, 1⟩] ++ last)
          ++ [PollEvent.poll_freewait]).count .poll_freewait = 1 :=
  mt7697_uart_rx_poll_decided open_session [⟨some 0, false, 1⟩] ⟨some 17, false, 1⟩ []
    (by
      intro o ho
      rw [List.mem_singleton] at ho
      subst ho
      exact ⟨0, rfl, by unfold Ready; decide, rfl, by decide⟩)
    (by
      rintro ⟨m, hm, hr, -, -⟩
      simp only [Option.some.injEq] at hm
      subst hm
      exact hr (by unfold Ready; decide))

end MT7697
